import Mathlib

/-!
Verification of the stitch shard pipeline against its specification.

Bytes are modelled as natural numbers (values < 256 where it matters),
byte sequences as `List Nat`, and the stateful Go readers and writers as
explicit state-passing functions.  External primitive libraries
(AES-GCM, the Reed-Solomon field primitive, msgpack, SHA-256) are black
boxes per the specification and are modelled as parameters; everything
else is translated directly from the repository sources.
-/

set_option maxRecDepth 8000

namespace Stitch

/-- Little-endian 16-bit encoding, as produced by binary.LittleEndian.PutUint16. -/
def le16 (n : Nat) : List Nat := [n % 256, n / 256 % 256]

/-- Big-endian 64-bit encoding, as produced by binary.BigEndian.PutUint64. -/
def be64 (n : Nat) : List Nat :=
  [n / 2 ^ 56 % 256, n / 2 ^ 48 % 256, n / 2 ^ 40 % 256, n / 2 ^ 32 % 256,
   n / 2 ^ 24 % 256, n / 2 ^ 16 % 256, n / 2 ^ 8 % 256, n % 256]

/-- Modelled from the spec: the w-byte big-endian encoding of n,
zero-padded on the left.  Used only to compare against the nonce the
code actually builds. -/
def beBytes : Nat → Nat → List Nat
  | 0, _ => []
  | w + 1, n => beBytes w (n / 256) ++ [n % 256]

/-- Errors surfaced by the modelled components.  `goPanic` stands for a
Go runtime panic (out-of-range slice index). -/
inductive Err where
  | eof
  | corruptionDetected (count : Nat)
  | shardReadFailed
  | reconstructFailed
  | verifyFailedAfterReconstruct
  | unrecognizedMagic
  | invalidHeaderSize
  | msgpackError
  | goPanic
  | openFailed
  | shardCountMismatch
  | outOfFuel
  deriving DecidableEq, Repr

/-- Seek whence values, mirroring io.SeekStart / io.SeekCurrent / io.SeekEnd. -/
inductive Whence where
  | start
  | current
  | fromEnd
  deriving DecidableEq, Repr

/-- A plain in-memory byte stream with a cursor, the way the repository's
Membuf and bytes-reader shards behave. -/
structure MemStream where
  data : List Nat
  pos : Nat
  deriving Repr, DecidableEq

/-- One Read call on an in-memory stream: end-of-stream when the cursor
is at or past the end, otherwise up to n bytes from the cursor
(mirroring Membuf.Read). -/
def memRead (s : MemStream) (n : Nat) : List Nat × MemStream × Option Err :=
  if s.data.length ≤ s.pos then ([], s, some .eof)
  else
    let bs := (s.data.drop s.pos).take n
    (bs, { s with pos := s.pos + bs.length }, none)

/-! ## Limit reader (util/limitreader.go) -/

/-- State of util.LimitReader: a wrapped stream, the byte limit, and the
position counter the wrapper maintains. -/
structure LimitReader where
  reader : MemStream
  limit : Nat
  pos : Nat
  deriving Repr, DecidableEq

/-- LimitReader.Read: returns EOF when pos has reached limit; otherwise
caps the destination buffer at `limit` (the source caps at `r.limit`,
not at `r.limit - r.pos`) and forwards the read, advancing pos by the
inner byte count. -/
def limitRead (r : LimitReader) (n : Nat) : List Nat × LimitReader × Option Err :=
  if r.limit ≤ r.pos then ([], r, some .eof)
  else
    let n' := if r.limit < n then r.limit else n
    let res := memRead r.reader n'
    (res.1, { reader := res.2.1, limit := r.limit, pos := r.pos + res.1.length }, res.2.2)

/-- Two successive reads through a limit reader, returning the bytes of
each read and the final wrapper state. -/
def limitReadTwice (r : LimitReader) (n₁ n₂ : Nat) :
    List Nat × List Nat × LimitReader :=
  let a := limitRead r n₁
  let b := limitRead a.2.1 n₂
  (a.1, b.1, b.2.1)

/-! ## Verifier arithmetic (verifier.go) -/

/-- roundUpMult from verifier.go: rounds num up to the next multiple. -/
def roundUpMult (num multiple : Nat) : Nat :=
  if multiple = 0 then num
  else if num % multiple = 0 then num
  else num + multiple - num % multiple

/-- BlocksCount as computed by VerifyShardIntegrity: the total block
count 1 + encryptedSize / blockSize is divided (integer floor division)
by the shard count and rounded up to the next multiple of the shard
count. -/
def blocksCount (encryptedSize blockSize shardCount : Nat) : Nat :=
  roundUpMult ((1 + encryptedSize / blockSize) / shardCount) shardCount

/-- Modelled from the spec: ceiling division. -/
def specCeilDiv (a b : Nat) : Nat := (a + b - 1) / b

/-- Modelled from the spec: expected block count
"⌈(1 + encrypted_size / B) / N⌉ rounded up to the next multiple of N". -/
def blocksCountSpec (encryptedSize blockSize shardCount : Nat) : Nat :=
  roundUpMult (specCeilDiv (1 + encryptedSize / blockSize) shardCount) shardCount

/-- One step of the per-stripe damage walk in VerifyIntegrity
(verifier.go, tally loop): given the stripe index, one shard's
verification outcome (none when the shard was unreadable, otherwise its
sorted BrokenBlocks list) and that shard's cursor, yield the tally
increment and the updated cursor. -/
def tallyStep (iBlk : Nat) (res : Option (List Nat)) (cursor : Nat) : Nat × Nat :=
  match res with
  | none => (1, cursor)
  | some broken =>
    if broken.length ≤ cursor then (0, cursor)
    else
      let v := broken.getD cursor 0
      if v = iBlk then (1, cursor)
      else if v < iBlk then (0, cursor + 1)
      else (0, cursor)

/-- The inner shard walk for one stripe: folds tallyStep over all
shards and their cursors. -/
def tallyShards (iBlk : Nat) : List (Option (List Nat)) → List Nat → Nat × List Nat
  | [], _ => (0, [])
  | _ :: _, [] => (0, [])
  | res :: rs, c :: cs =>
    let s := tallyStep iBlk res c
    let rest := tallyShards iBlk rs cs
    (s.1 + rest.1, s.2 :: rest.2)

/-- The outer stripe loop of VerifyIntegrity (verifier.go lines
184-218): walks stripe indices iBlk, iBlk+1, ..., upto totalBlocks,
carrying the per-shard cursors, and collects every stripe whose tally
exceeds the parity count. -/
def irrecoverableFrom (parity : Nat) (results : List (Option (List Nat))) :
    Nat → Nat → List Nat → List Nat
  | _, 0, _ => []
  | iBlk, fuel + 1, ns =>
    let s := tallyShards iBlk results ns
    let rest := irrecoverableFrom parity results (iBlk + 1) fuel s.2
    if parity < s.1 then iBlk :: rest else rest

/-- IrrecoverableBlocks as computed by VerifyIntegrity: stripe indices
0 .. totalBlocks-1 whose damage tally exceeds the parity shard count. -/
def verifyIrrecoverable (parity totalBlocks : Nat)
    (results : List (Option (List Nat))) : List Nat :=
  irrecoverableFrom parity results 0 totalBlocks (List.replicate results.length 0)

/-- Modelled from the spec: the damage of stripe k is the number of
unreadable shards plus the number of readable shards whose BrokenBlocks
list contains k. -/
def specDamage (results : List (Option (List Nat))) (k : Nat) : Nat :=
  results.countP fun r => match r with
    | none => true
    | some broken => broken.contains k

/-! ## Shard header (header/header.go) -/

/-- The 8 magic bytes "STITCHv1". -/
def headerMagic : List Nat := [83, 84, 73, 84, 67, 72, 118, 49]

/-- The fixed header size H = 1024. -/
def headerSizeH : Nat := 1024

/-- Header.Encode: starts from HeaderSize random padding bytes `pad`,
overwrites the first 8 with the magic, rejects marshaled descriptors
longer than HeaderSize - 8, stores the 16-bit little-endian descriptor
length at bytes 8..10, and copies the descriptor into the remaining
HeaderSize - 10 bytes (Go's copy silently truncates there).  The
marshaled msgpack bytes arrive as the `marshaled` parameter since
msgpack is an external library. -/
def headerEncode (pad marshaled : List Nat) : Except Err (List Nat) :=
  if headerSizeH - 8 < marshaled.length then .error .invalidHeaderSize
  else .ok (headerMagic ++ le16 marshaled.length ++
    marshaled.take (headerSizeH - 10) ++
    pad.drop (10 + min marshaled.length (headerSizeH - 10)))

/-- Outcomes of Header.Decode.  `invalidHeaderSize` is listed because
the specification names it; `goPanic` models the out-of-range slice
access data[10 : 10+dataLen] on a buffer of capacity HeaderSize. -/
inductive HeaderDecodeResult (α : Type) where
  | unrecognizedMagic
  | invalidHeaderSize
  | goPanic
  | msgpackError
  | ok (h : α)
  deriving DecidableEq, Repr

/-- The magic-byte loop of Header.Decode: compares each magic byte with
data[i] in order; indexing past the end of data is a Go panic. -/
def checkMagicFrom (data : List Nat) : Nat → List Nat → HeaderDecodeResult Unit
  | _, [] => .ok ()
  | i, m :: ms =>
    if data.length ≤ i then .goPanic
    else if data.getD i 0 ≠ m then .unrecognizedMagic
    else checkMagicFrom data (i + 1) ms

/-- Header.Decode: checks the magic bytes, reads the little-endian
16-bit descriptor length from bytes 8..10, and unconditionally hands
data[10 : 10+dataLen] to the msgpack decoder — there is no bound check
against HeaderSize - 10, and an oversized length panics on the slice.
`unmarshal` stands for the external msgpack decoder. -/
def headerDecode {α : Type} (unmarshal : List Nat → Option α) (data : List Nat) :
    HeaderDecodeResult α :=
  match checkMagicFrom data 0 headerMagic with
  | .goPanic => .goPanic
  | .unrecognizedMagic => .unrecognizedMagic
  | _ =>
    if data.length < 10 then .goPanic
    else
      let dataLen := data.getD 8 0 + 256 * data.getD 9 0
      if data.length < 10 + dataLen then .goPanic
      else match unmarshal ((data.drop 10).take dataLen) with
        | none => .msgpackError
        | some h => .ok h

/-! ## AEAD stream layer (aes/aes.go) -/

/-- The AEAD primitive (crypto/cipher GCM) is an external black box:
sealing appends `overhead` tag bytes, opening either recovers the
plaintext or fails.  The 12-byte nonce is passed explicitly. -/
structure AEAD where
  overhead : Nat
  Seal : List Nat → List Nat → List Nat
  Open : List Nat → List Nat → Option (List Nat)
  seal_length : ∀ nonce p, (Seal nonce p).length = p.length + overhead

/-- GetOffset from aes.go: byte offset of the chunk with the given index. -/
def GetOffset (chunkSize overhead index : Nat) : Nat :=
  index * (chunkSize + overhead)

/-- FromOffset from aes.go: chunk index containing the given offset. -/
def FromOffset (chunkSize overhead offset : Nat) : Nat :=
  offset / (chunkSize + overhead)

/-- The nonce both AESWriter.Write/Close and AESReader.Read build:
12 zero bytes with binary.BigEndian.PutUint64(nonce, index) overwriting
the first 8, leaving the trailing 4 bytes zero. -/
def aesNonce (index : Nat) : List Nat := be64 index ++ [0, 0, 0, 0]

/-- State of AESWriter: bytes already written downstream, the internal
buffer, and the plaintext-read / ciphertext-written counters. -/
structure AESWriter where
  ds : List Nat
  buffer : List Nat
  read : Nat
  written : Nat
  deriving Repr, DecidableEq

/-- The zero AESWriter returned by NewWriter. -/
def aesWriterInit : AESWriter := ⟨[], [], 0, 0⟩

/-- One iteration of the Write loop: seal the first chunkSize buffered
bytes under the nonce of index written / (chunkSize + overhead), append
the ciphertext downstream and advance the written counter. -/
def aesSealStep (A : AEAD) (C : Nat) (w : AESWriter) : AESWriter :=
  let index := FromOffset C A.overhead w.written
  let ct := A.Seal (aesNonce index) (w.buffer.take C)
  { ds := w.ds ++ ct, buffer := w.buffer.drop C,
    read := w.read, written := w.written + ct.length }

/-- The Write loop: seal chunks while at least chunkSize bytes are
buffered.  fuel bounds the iteration count; buffer.length is always
enough fuel when 0 < C. -/
def aesProcess (A : AEAD) (C : Nat) : Nat → AESWriter → AESWriter
  | 0, w => w
  | fuel + 1, w =>
    if w.buffer.length < C then w
    else aesProcess A C fuel (aesSealStep A C w)

/-- AESWriter.Write: append p to the buffer, count it as read, then run
the sealing loop. -/
def aesWrite (A : AEAD) (C : Nat) (w : AESWriter) (p : List Nat) : AESWriter :=
  let w' : AESWriter :=
    { ds := w.ds, buffer := w.buffer ++ p, read := w.read + p.length, written := w.written }
  aesProcess A C w'.buffer.length w'

/-- A sequence of Write calls. -/
def aesWrites (A : AEAD) (C : Nat) (w : AESWriter) (ps : List (List Nat)) : AESWriter :=
  ps.foldl (aesWrite A C) w

/-- AESWriter.Close: pad the residual buffer with zero bytes up to
chunkSize if it is shorter, then seal and emit one final chunk
unconditionally. -/
def aesClose (A : AEAD) (C : Nat) (w : AESWriter) : AESWriter :=
  let chunk :=
    if w.buffer.length < C then w.buffer ++ List.replicate (C - w.buffer.length) 0
    else w.buffer
  let index := FromOffset C A.overhead w.written
  let ct := A.Seal (aesNonce index) chunk
  { w with ds := w.ds ++ ct, written := w.written + ct.length }

/-- State of AESReader: the downstream ciphertext stream, the chunk
size, the plaintext length recorded in the header, and the pending
head-of-chunk discard count. -/
structure AESReader where
  ds : MemStream
  chunkSize : Nat
  fileSize : Nat
  bytesToDiscard : Nat
  deriving Repr, DecidableEq

/-- AESReader.Seek: resolve the target against the seek mode — note
SeekCurrent adds the offset to the *downstream ciphertext* position and
SeekEnd to fileSize — then derive the chunk index with FromOffset
(overhead 0), record the intra-chunk remainder as bytesToDiscard, and
position the downstream stream at the chunk's ciphertext offset. -/
def aesSeek (A : AEAD) (r : AESReader) (offset : Int) (whence : Whence) :
    Int × AESReader :=
  let startOffset : Int :=
    match whence with
    | .start => offset
    | .current => (r.ds.pos : Int) + offset
    | .fromEnd => (r.fileSize : Int) + offset
  let block := FromOffset r.chunkSize 0 startOffset.toNat
  let ciphertextOffset := GetOffset r.chunkSize A.overhead block
  (startOffset,
    { r with ds := { r.ds with pos := ciphertextOffset },
             bytesToDiscard := startOffset.toNat - block * r.chunkSize })

/-- Go's copy(p[i:], src): overwrites at most len(p) - i bytes of p
starting at i, leaving the rest of p unchanged. -/
def listCopyAt (p src : List Nat) (i : Nat) : List Nat :=
  p.take i ++ src.take (p.length - i) ++ p.drop (i + min src.length (p.length - i))

/-- The decrypt loop of AESReader.Read: steps through the read buffer b
in strides of chunkSize + overhead while i < n, opening each chunk,
dropping the pending discard from the first, truncating to the space
left as measured by the written counter, and copying to output offset
(i / (chunkSize+overhead)) * chunkSize. -/
def aesReadLoop (A : AEAD) (C : Nat) (b : List Nat) (n : Nat) :
    Nat → Nat → Nat → Nat → List Nat → Nat → Except Err (List Nat × Nat)
  | 0, i, _, _, p, written =>
    if i < n then .error .outOfFuel else .ok (p, written)
  | fuel + 1, i, index, discard, p, written =>
    if i < n then
      let ct := (b.drop i).take (C + A.overhead)
      match A.Open (aesNonce index) ct with
      | none => .error .openFailed
      | some pt =>
        let pt1 := pt.drop discard
        let pt2 := if p.length - written < pt1.length then pt1.take (p.length - written) else pt1
        let outidx := i / (C + A.overhead) * C
        aesReadLoop A C b n fuel (i + (C + A.overhead)) (index + 1) 0
          (listCopyAt p pt2 outidx) (written + pt2.length)
    else .ok (p, written)

/-- AESReader.Read into a fresh zeroed buffer of plen bytes: allocate
room for plen / chunkSize + 1 chunks, derive the chunk index from the
current downstream position, issue one downstream read, then run the
decrypt loop over the bytes obtained.  Returns the output buffer, the
reported byte count and the updated reader. -/
def aesRead (A : AEAD) (r : AESReader) (plen : Nat) :
    Except Err (List Nat × Nat × AESReader) :=
  let blocks := plen / r.chunkSize + 1
  let blen := blocks * (r.chunkSize + A.overhead)
  let index := FromOffset r.chunkSize A.overhead r.ds.pos
  let res := memRead r.ds blen
  match res.2.2 with
  | some e => .error e
  | none =>
    let nRead := res.1.length
    let b := res.1 ++ List.replicate (blen - nRead) 0
    match aesReadLoop A r.chunkSize b nRead blocks 0 index r.bytesToDiscard
        (List.replicate plen 0) 0 with
    | .error e => .error e
    | .ok pw =>
      .ok (pw.1, pw.2,
        { r with ds := res.2.1,
                 bytesToDiscard := if 0 < nRead then 0 else r.bytesToDiscard })

/-- A concrete AEAD instance used to evaluate the models on closed
inputs: 4 overhead bytes derived from the plaintext and nonce sums. -/
def toySeal (nonce p : List Nat) : List Nat :=
  p ++ List.replicate 4 ((p.sum + nonce.sum) % 256)

/-- Opening for the concrete AEAD instance: checks the 4 trailing tag
bytes and strips them. -/
def toyOpen (nonce ct : List Nat) : Option (List Nat) :=
  if ct.length < 4 then none
  else
    let p := ct.take (ct.length - 4)
    if ct.drop (ct.length - 4) = List.replicate 4 ((p.sum + nonce.sum) % 256) then some p
    else none

/-- The bundled concrete AEAD instance. -/
def toyAEAD : AEAD where
  overhead := 4
  Seal := toySeal
  Open := toyOpen
  seal_length := by intro nonce p; simp [toySeal]

/-! ## Reed-Solomon block layer (reedsolomon/reedsolomon.go, reader.go) -/

/-- The reedsolomon.Encoder configuration together with the external
GF(2^8) primitive (klauspost/reedsolomon) it wraps: verify checks a
shard set, reconstruct rebuilds erased (empty) shards or fails. -/
structure RSEncoder where
  dataShards : Nat
  parityShards : Nat
  blockSize : Nat
  verify : List (List Nat) → Bool
  reconstruct : List (List Nat) → Option (List (List Nat))

/-- One buffered read of n bytes in Join: the destination buffer is
zero-allocated, a short read leaves the tail zeroed, and end-of-stream
surfaces as a failed shard read. -/
def readBlock (s : MemStream) (n : Nat) : Except Err (List Nat × MemStream) :=
  let r := memRead s n
  match r.2.2 with
  | some _ => .error .shardReadFailed
  | none => .ok (r.1 ++ List.replicate (n - r.1.length) 0, r.2.1)

/-- The per-stripe shard scan of Encoder.Join: for each shard read one
blockSize payload and one 32-byte hash, recompute the hash of the
payload buffer, and erase (empty) the payload on mismatch, counting it
as one broken block.  nil shards are skipped, leaving a zero payload.
`hash` stands for SHA-256. -/
def rsReadStripe (hash : List Nat → List Nat) (blockSize : Nat) :
    List (Option MemStream) → Except Err (List (List Nat) × List (Option MemStream) × Nat)
  | [] => .ok ([], [], 0)
  | none :: rest =>
    match rsReadStripe hash blockSize rest with
    | .error e => .error e
    | .ok (bufs, ss, k) => .ok (List.replicate blockSize 0 :: bufs, none :: ss, k)
  | some s :: rest =>
    match readBlock s blockSize with
    | .error e => .error e
    | .ok (blk, s1) =>
      match readBlock s1 32 with
      | .error _ => .error .shardReadFailed
      | .ok (stored, s2) =>
        match rsReadStripe hash blockSize rest with
        | .error e => .error e
        | .ok (bufs, ss, k) =>
          if stored = hash blk then .ok (blk :: bufs, some s2 :: ss, k)
          else .ok ([] :: bufs, some s2 :: ss, k + 1)

/-- The verify / reconstruct / re-verify step of Encoder.Join. -/
def rsRepair (enc : RSEncoder) (bufs : List (List Nat)) :
    Except Err (List (List Nat)) :=
  if enc.verify bufs then .ok bufs
  else
    match enc.reconstruct bufs with
    | none => .error .reconstructFailed
    | some bufs2 =>
      if enc.verify bufs2 then .ok bufs2 else .error .verifyFailedAfterReconstruct

/-- The stripe loop of Encoder.Join: read a stripe, repair it, append
min(blockSize * dataShards, bytesLeft) reconstructed data bytes to the
output, and continue until bytesLeft reaches zero.  The accumulated
output is returned even when an error cuts the loop short; when the
loop completes with a positive broken-block count it reports
CorruptionDetected after having produced the full output. -/
def rsJoinLoop (enc : RSEncoder) (hash : List Nat → List Nat) :
    Nat → List (Option MemStream) → Nat → Nat → List Nat → List Nat × Option Err
  | 0, _, _, _, acc => (acc, some .outOfFuel)
  | fuel + 1, shards, bytesLeft, broken, acc =>
    match rsReadStripe hash enc.blockSize shards with
    | .error e => (acc, some e)
    | .ok (bufs, shards', inc) =>
      let broken' := broken + inc
      match rsRepair enc bufs with
      | .error e => (acc, some e)
      | .ok bufs2 =>
        let blockSize := min (enc.blockSize * enc.dataShards) bytesLeft
        let acc' := acc ++ ((bufs2.take enc.dataShards).flatten.take blockSize)
        let bytesLeft' := bytesLeft - blockSize
        if bytesLeft' = 0 then
          (acc', if broken' = 0 then none else some (.corruptionDetected broken'))
        else rsJoinLoop enc hash fuel shards' bytesLeft' broken' acc'

/-- Encoder.Join: requires dataShards + parityShards input shards, then
runs the stripe loop for outSize output bytes. -/
def rsJoin (enc : RSEncoder) (hash : List Nat → List Nat)
    (shards : List (Option MemStream)) (outSize : Nat) : List Nat × Option Err :=
  if shards.length ≠ enc.dataShards + enc.parityShards then ([], some .shardCountMismatch)
  else rsJoinLoop enc hash (outSize + 1) shards outSize 0 []

/-- State of reedsolomon.ReadSeeker: the shard streams, the total
output size, the logical cursor and the pending discard count. -/
structure RSReadSeeker where
  shards : List MemStream
  outSize : Nat
  currentOffset : Nat
  bytesToDiscard : Nat
  deriving Repr, DecidableEq

/-- ReadSeeker.Seek: resolve the target offset, derive the stripe index
block = offset / (blockSize * dataShards), position every shard at
block * (blockSize + 32), and remember the intra-stripe remainder as
bytesToDiscard. -/
def rsSeek (enc : RSEncoder) (r : RSReadSeeker) (offset : Int) (whence : Whence) :
    Int × RSReadSeeker :=
  let off : Int :=
    match whence with
    | .start => offset
    | .current => offset + (r.currentOffset : Int)
    | .fromEnd => (r.outSize : Int) + offset
  let stripeBytes := enc.blockSize * enc.dataShards
  let block := off.toNat / stripeBytes
  let shardOffset := block * (enc.blockSize + 32)
  (off,
    { shards := r.shards.map fun s => { s with pos := shardOffset },
      outSize := r.outSize,
      currentOffset := off.toNat,
      bytesToDiscard := off.toNat - block * stripeBytes })

/-- The capacity bytes.Buffer.Grow(n) gives a fresh buffer: 64 for
small requests, exactly n otherwise. -/
def bufGrowCap (n : Nat) : Nat := if n ≤ 64 then 64 else n

/-- ReadSeeker.Read: re-seek to the current offset, report EOF at or
past outSize, size the request against outSize, decode
size + bytesToDiscard bytes (rounded up to the buffer capacity) through
Join, and return the decoded bytes after the discard — any Join error,
including the advisory CorruptionDetected, aborts the read with no
data. -/
def rsRead (enc : RSEncoder) (hash : List Nat → List Nat)
    (r : RSReadSeeker) (plen : Nat) : Except Err (List Nat × RSReadSeeker) :=
  let r1 := (rsSeek enc r 0 .current).2
  if r1.outSize ≤ r1.currentOffset then .error .eof
  else
    let size := if r1.outSize < r1.currentOffset + plen
      then r1.outSize - r1.currentOffset else plen
    let fill := bufGrowCap (size + r1.bytesToDiscard)
    let joined := rsJoin enc hash (r1.shards.map some) fill
    match joined.2 with
    | some e => .error e
    | none =>
      let avail := joined.1.drop r1.bytesToDiscard
      let n := min plen avail.length
      .ok (avail.take n, (rsSeek enc r1 (n : Int) .current).2)

/-- A concrete instance of the external Reed-Solomon primitive at one
data shard and one parity shard: the only parity block of a
one-data-shard code equals the data block.  verify accepts exactly a
full-size pair of equal blocks. -/
def rs11verify (B : Nat) : List (List Nat) → Bool
  | [d, p] => d.length = B && p.length = B && d = p
  | _ => false

/-- Reconstruction for the concrete (1,1) primitive: empty slots are
erasures and are rebuilt from the surviving block; with no survivor it
fails. -/
def rs11reconstruct (B : Nat) : List (List Nat) → Option (List (List Nat))
  | [d, p] =>
    if d.length = B ∧ p.length = B then some [d, p]
    else if d.length = B then some [d, d]
    else if p.length = B then some [p, p]
    else none
  | _ => none

/-- The bundled concrete (1,1) Reed-Solomon encoder with the given
block size. -/
def rs11 (B : Nat) : RSEncoder :=
  ⟨1, 1, B, rs11verify B, rs11reconstruct B⟩

/-- A concrete 32-byte stand-in for SHA-256, used to evaluate the
models on closed inputs. -/
def toyHash (bs : List Nat) : List Nat :=
  List.replicate 31 0 ++ [bs.sum % 256]

/-! ## Encoder orchestrator input loop (Encoder.Encode) -/

/-- The plaintext consumption loop of Encoder.Encode: each script entry
is the byte slice one data.Read call returns, and an exhausted script
is end-of-file.  The loop accumulates fileSize and the bytes fed to the
running hash and the compressor, and stops at end-of-file or as soon as
a read returns fewer than rsBlockSize bytes.  Returns (fileSize, bytes
hashed). -/
def encodeLoop (rsBlockSize : Nat) : List (List Nat) → Nat × List Nat
  | [] => (0, [])
  | e :: rest =>
    if e.length < rsBlockSize then (e.length, e)
    else
      let r := encodeLoop rsBlockSize rest
      (e.length + r.1, e ++ r.2)

/-! ## Result projections used to state closed evaluations -/

/-- The error of a fallible result, if any. -/
def errOf {α : Type} : Except Err α → Option Err
  | .error e => some e
  | .ok _ => none

/-- The buffer and count an AESReader.Read reported, if it succeeded. -/
def aesReadOut (x : Except Err (List Nat × Nat × AESReader)) : Option (List Nat × Nat) :=
  match x with
  | .error _ => none
  | .ok t => some (t.1, t.2.1)

/-- The bytes a ReadSeeker.Read returned, if it succeeded. -/
def rsReadOut (x : Except Err (List Nat × RSReadSeeker)) : Option (List Nat) :=
  match x with
  | .error _ => none
  | .ok t => some t.1

/-! ## Theorems -/

/-- Claim C9: the limit reader is claimed to cap the wrapped stream at
L, a Read never delivering more than L minus the current position.
The code caps the buffer at `limit` instead of `limit - pos`: over a
4-byte stream with L = 2, reading 1 byte and then 2 bytes delivers
[10] and then [11, 12], leaving the position at 3 > L — the second
read returned 2 bytes although only 1 remained below the limit. -/
theorem limitRead_past_limit :
    limitReadTwice ⟨⟨[10, 11, 12, 13], 0⟩, 2, 0⟩ 1 2 =
      ([10], [11, 12], ⟨⟨[10, 11, 12, 13], 3⟩, 2, 3⟩) ∧
    (limitReadTwice ⟨⟨[10, 11, 12, 13], 0⟩, 2, 0⟩ 1 2).2.1.length = 2 ∧
    2 < (limitReadTwice ⟨⟨[10, 11, 12, 13], 0⟩, 2, 0⟩ 1 2).2.2.pos := by
  decide

/-- Claim C4: VerifyIntegrity is claimed to list every stripe whose
damage exceeds P regardless of how broken blocks are distributed.  With
P = 0, two stripes and a single shard reporting the sorted broken list
[0, 1], the cursor walk (which does not advance a cursor on a match)
skips the immediately following broken index: stripe 1 has damage 1 > 0
yet is absent from IrrecoverableBlocks. -/
theorem verifyIntegrity_misses_consecutive_broken :
    verifyIrrecoverable 0 2 [some [0, 1]] = [0] ∧
    specDamage [some [0, 1]] 1 = 1 ∧
    ¬ 1 ∈ verifyIrrecoverable 0 2 [some [0, 1]] := by
  decide

/-- Claim C5: Encode's input loop is claimed to stop only at
end-of-file.  The loop also breaks as soon as a read returns fewer than
rsBlockSize bytes: for a reader returning 1 byte twice before EOF, only
the first byte is counted and hashed. -/
theorem encodeLoop_stops_on_short_read :
    encodeLoop 4096 [[5], [6]] = (1, [5]) ∧
    ([[5], [6]].map List.length).sum = 2 ∧
    (encodeLoop 4096 [[5], [6]]).1 ≠ ([[5], [6]].map List.length).sum ∧
    (encodeLoop 4096 [[5], [6]]).2 ≠ [[5], [6]].flatten := by
  decide

/-- Claim C2: the RS read path is claimed to treat CorruptionDetected
as non-fatal so that a stream with at most P broken blocks per stripe
still reads back in full.  With one data and one parity shard over one
64-byte stripe and a single corrupted parity payload (one broken block,
within the parity budget), Join fully reconstructs the stripe — its
output equals the original data and the error is the advisory
CorruptionDetected — yet ReadSeeker.Read propagates that error and
returns no data at all. -/
theorem rsRead_discards_reconstructed_data :
    rsReadOut (rsRead (rs11 64) toyHash
        ⟨[⟨(List.range 64).map (· + 1) ++ toyHash ((List.range 64).map (· + 1)), 0⟩,
          ⟨((List.range 64).map (· + 1)).set 0 9 ++ toyHash ((List.range 64).map (· + 1)), 0⟩],
         64, 0, 0⟩ 64) = none ∧
    errOf (rsRead (rs11 64) toyHash
        ⟨[⟨(List.range 64).map (· + 1) ++ toyHash ((List.range 64).map (· + 1)), 0⟩,
          ⟨((List.range 64).map (· + 1)).set 0 9 ++ toyHash ((List.range 64).map (· + 1)), 0⟩],
         64, 0, 0⟩ 64) = some (.corruptionDetected 1) ∧
    (rsJoin (rs11 64) toyHash
        [some ⟨(List.range 64).map (· + 1) ++ toyHash ((List.range 64).map (· + 1)), 0⟩,
         some ⟨((List.range 64).map (· + 1)).set 0 9 ++ toyHash ((List.range 64).map (· + 1)), 0⟩]
        64).1 = (List.range 64).map (· + 1) := by
  decide

/-- Claim C3: seeking the plaintext view to o and reading k bytes is
claimed to yield X[o:o+k].  The AEAD reader's Seek computes the chunk,
downstream offset and discard correctly for SeekStart, but Read copies
chunk c to output offset c * chunkSize without subtracting the discard:
over X = 0..15 with chunk size 8, seeking to 2 and reading 14 returns
X[2:8] ++ [0, 0] ++ X[8:14] — a stale 2-byte gap at the chunk boundary
— instead of X[2:16].  Moreover SeekCurrent resolves against the
downstream ciphertext position: after Seek(5, start) (which leaves the
downstream cursor at 0), Seek(0, current) yields 0, not 5. -/
theorem aesReader_gap_after_seek :
    (aesSeek toyAEAD ⟨⟨(aesClose toyAEAD 8 (aesWrite toyAEAD 8 aesWriterInit (List.range 16))).ds, 0⟩,
        8, 16, 0⟩ 2 .start).1 = 2 ∧
    (aesSeek toyAEAD ⟨⟨(aesClose toyAEAD 8 (aesWrite toyAEAD 8 aesWriterInit (List.range 16))).ds, 0⟩,
        8, 16, 0⟩ 2 .start).2.bytesToDiscard = 2 ∧
    (aesSeek toyAEAD ⟨⟨(aesClose toyAEAD 8 (aesWrite toyAEAD 8 aesWriterInit (List.range 16))).ds, 0⟩,
        8, 16, 0⟩ 2 .start).2.ds.pos = GetOffset 8 4 0 ∧
    aesReadOut (aesRead toyAEAD
        (aesSeek toyAEAD ⟨⟨(aesClose toyAEAD 8 (aesWrite toyAEAD 8 aesWriterInit (List.range 16))).ds, 0⟩,
          8, 16, 0⟩ 2 .start).2 14) =
      some ([2, 3, 4, 5, 6, 7, 0, 0, 8, 9, 10, 11, 12, 13], 14) ∧
    [2, 3, 4, 5, 6, 7, 0, 0, 8, 9, 10, 11, 12, 13] ≠ ((List.range 16).drop 2).take 14 ∧
    (aesSeek toyAEAD
        (aesSeek toyAEAD ⟨⟨(aesClose toyAEAD 8 (aesWrite toyAEAD 8 aesWriterInit (List.range 16))).ds, 0⟩,
          8, 16, 0⟩ 5 .start).2 0 .current).1 = 0 := by
  decide

/-- Claim C6, counterexample: the nonce for chunk index 1 is not the
96-bit big-endian encoding of 1 — the code writes the 64-bit big-endian
encoding into the first 8 of the 12 nonce bytes, so the index sits in
the high-order bytes and the last 4 bytes stay zero. -/
theorem aesNonce_ne_be96 :
    aesNonce 1 = [0, 0, 0, 0, 0, 0, 0, 1, 0, 0, 0, 0] ∧
    beBytes 12 1 = [0, 0, 0, 0, 0, 0, 0, 0, 0, 0, 0, 1] ∧
    aesNonce 1 ≠ beBytes 12 1 := by
  decide

/-- Claim C7, counterexample: Close on a writer with an empty residual
buffer (r = 0) still seals and emits one final chunk — of chunkSize
zero bytes plus the AEAD overhead — although the claim says no chunk is
emitted when r = 0. -/
theorem aesClose_seals_on_empty_residual :
    aesWriterInit.buffer.length = 0 ∧
    (aesClose toyAEAD 8 aesWriterInit).ds.length = 8 + 4 ∧
    (aesClose toyAEAD 8 aesWriterInit).ds ≠ aesWriterInit.ds := by
  decide

/-- Claim C8, counterexample: a 1024-byte buffer with a valid magic and
descriptor length field L = 1015 > H - 10 = 1014 does not make Decode
fail with InvalidHeaderSize — Decode has no length check and the
out-of-range slice data[10 : 10+L] is a Go panic; dually Encode accepts
a 1015-byte descriptor (its bound is H - 8), so serialization can
produce a header whose recorded L exceeds H - 10. -/
theorem headerDecode_no_invalid_size_check :
    headerDecode (fun _ => (none : Option Unit))
        (headerMagic ++ le16 1015 ++ List.replicate 1014 0) = .goPanic ∧
    headerDecode (fun _ => (none : Option Unit))
        (headerMagic ++ le16 1015 ++ List.replicate 1014 0) ≠ .invalidHeaderSize ∧
    (headerMagic ++ le16 1015 ++ List.replicate 1014 0).length = headerSizeH ∧
    (headerEncode (List.replicate 1024 0) (List.replicate 1015 7)).isOk = true := by
  decide

/-- Claim C10, counterexample: with encrypted size 4, block size 1 and
2 shards, the code computes roundUpMult(⌊5 / 2⌋, 2) = 2, while the
claimed formula roundUpMult(⌈5 / 2⌉, 2) gives 4. -/
theorem blocksCount_ne_ceil_formula :
    blocksCount 4 1 2 = 2 ∧ blocksCountSpec 4 1 2 = 4 ∧
    blocksCount 4 1 2 ≠ blocksCountSpec 4 1 2 := by
  decide

/-- roundUpMult q N is the least multiple of N that is at least q. -/
theorem roundUpMult_least (q N : Nat) (hN : 0 < N) :
    N ∣ roundUpMult q N ∧ q ≤ roundUpMult q N ∧
    ∀ m, N ∣ m → q ≤ m → roundUpMult q N ≤ m := by
  have hN0 : ¬ N = 0 := by omega
  unfold roundUpMult
  rw [if_neg hN0]
  by_cases h : q % N = 0
  · rw [if_pos h]
    exact ⟨Nat.dvd_of_mod_eq_zero h, Nat.le_refl q, fun m _ hqm => hqm⟩
  · rw [if_neg h]
    have hdm : N * (q / N) + q % N = q := Nat.div_add_mod q N
    have hlt : q % N < N := Nat.mod_lt _ hN
    have heq : q + N - q % N = N * (q / N + 1) := by
      rw [Nat.mul_add, Nat.mul_one]
      omega
    refine ⟨⟨q / N + 1, heq⟩, by omega, ?_⟩
    intro m hm hqm
    obtain ⟨k, rfl⟩ := hm
    have hk : q / N < k := by
      by_contra hc
      push_neg at hc
      have h2 : N * k ≤ N * (q / N) := Nat.mul_le_mul_left N hc
      omega
    have h3 : N * (q / N + 1) ≤ N * k := Nat.mul_le_mul_left N hk
    omega

/-- Claim C10, amended: BlocksCount equals
⌊(1 + ⌊encrypted_size / B⌋) / N⌋ rounded up to the next multiple of N —
floor division by the shard count, not the claimed ceiling —
characterized here as the least multiple of N at least that floor
quotient. -/
theorem blocksCount_round_up_floor (E B N : Nat) (hN : 0 < N) :
    N ∣ blocksCount E B N ∧
    (1 + E / B) / N ≤ blocksCount E B N ∧
    ∀ m, N ∣ m → (1 + E / B) / N ≤ m → blocksCount E B N ≤ m :=
  roundUpMult_least ((1 + E / B) / N) N hN

/-- Witness for blocksCount_round_up_floor at E = 4, B = 1, N = 2. -/
theorem blocksCount_round_up_floor_w :
    2 ∣ blocksCount 4 1 2 ∧
    (1 + 4 / 1) / 2 ≤ blocksCount 4 1 2 ∧
    ∀ m, 2 ∣ m → (1 + 4 / 1) / 2 ≤ m → blocksCount 4 1 2 ≤ m :=
  blocksCount_round_up_floor 4 1 2 (by decide)

/-- A seal step on a buffer holding at least one chunk advances the
ciphertext counter by exactly chunkSize + overhead. -/
theorem aesSealStep_written (A : AEAD) (C : Nat) (w : AESWriter)
    (h : C ≤ w.buffer.length) :
    (aesSealStep A C w).written = w.written + (C + A.overhead) := by
  unfold aesSealStep
  simp only [A.seal_length, List.length_take]
  omega

/-- The write loop preserves divisibility of the ciphertext counter by
the sealed-chunk size. -/
theorem aesProcess_dvd (A : AEAD) (C : Nat) :
    ∀ fuel w, (C + A.overhead) ∣ w.written →
      (C + A.overhead) ∣ (aesProcess A C fuel w).written := by
  intro fuel
  induction fuel with
  | zero => intro w h; exact h
  | succ n ih =>
    intro w h
    unfold aesProcess
    by_cases hb : w.buffer.length < C
    · rw [if_pos hb]
      exact h
    · rw [if_neg hb]
      apply ih
      rw [aesSealStep_written A C w (Nat.le_of_not_lt hb)]
      exact dvd_add h dvd_rfl

/-- With enough fuel the write loop drains the buffer below one chunk. -/
theorem aesProcess_buffer_lt (A : AEAD) (C : Nat) (hC : 0 < C) :
    ∀ fuel w, w.buffer.length ≤ fuel →
      (aesProcess A C fuel w).buffer.length < C := by
  intro fuel
  induction fuel with
  | zero =>
    intro w h
    unfold aesProcess
    omega
  | succ n ih =>
    intro w h
    unfold aesProcess
    by_cases hb : w.buffer.length < C
    · rw [if_pos hb]
      exact hb
    · rw [if_neg hb]
      apply ih
      unfold aesSealStep
      simp only [List.length_drop]
      omega

/-- AESWriter.Write leaves fewer than chunkSize bytes buffered. -/
theorem aesWrite_buffer_lt (A : AEAD) (C : Nat) (hC : 0 < C)
    (w : AESWriter) (p : List Nat) :
    (aesWrite A C w p).buffer.length < C :=
  aesProcess_buffer_lt A C hC _ _ (by simp [aesWrite])

/-- AESWriter.Write preserves divisibility of the ciphertext counter. -/
theorem aesWrite_dvd (A : AEAD) (C : Nat) (w : AESWriter) (p : List Nat)
    (h : (C + A.overhead) ∣ w.written) :
    (C + A.overhead) ∣ (aesWrite A C w p).written :=
  aesProcess_dvd A C _ _ h

/-- Any sequence of writes keeps the buffer below one chunk. -/
theorem aesWrites_buffer_lt (A : AEAD) (C : Nat) (hC : 0 < C) :
    ∀ ps w, w.buffer.length < C → (aesWrites A C w ps).buffer.length < C := by
  intro ps
  induction ps with
  | nil => intro w h; exact h
  | cons p ps ih =>
    intro w h
    simp only [aesWrites, List.foldl] at *
    exact ih _ (aesWrite_buffer_lt A C hC w p)

/-- Any sequence of writes keeps the ciphertext counter a multiple of
the sealed-chunk size. -/
theorem aesWrites_dvd (A : AEAD) (C : Nat) :
    ∀ ps w, (C + A.overhead) ∣ w.written →
      (C + A.overhead) ∣ (aesWrites A C w ps).written := by
  intro ps
  induction ps with
  | nil => intro w h; exact h
  | cons p ps ih =>
    intro w h
    simp only [aesWrites, List.foldl] at *
    exact ih _ (aesWrite_dvd A C w p h)

/-- Claim C6, amended: the AEAD nonce for chunk index j, on both the
writer and reader sides, is the 64-bit big-endian encoding of j in the
first 8 (high-order) bytes of the 12-byte nonce with the trailing 4
bytes zero; both sides derive the same index j from the downstream
position j * (C + T), and after any write sequence the writer's
ciphertext counter is such a chunk multiple, so the index it feeds to
aesNonce counts sealed chunks exactly. -/
theorem aesNonce_be64_high_order (A : AEAD) (C : Nat) (hC : 0 < C)
    (ps : List (List Nat)) (j : Nat) :
    aesNonce j = be64 j ++ [0, 0, 0, 0] ∧
    FromOffset C A.overhead (GetOffset C A.overhead j) = j ∧
    (C + A.overhead) ∣ (aesWrites A C aesWriterInit ps).written := by
  refine ⟨rfl, ?_, aesWrites_dvd A C ps aesWriterInit (dvd_zero _)⟩
  unfold FromOffset GetOffset
  exact Nat.mul_div_cancel _ (show 0 < C + A.overhead by omega)

/-- Witness for aesNonce_be64_high_order at the concrete AEAD, C = 8,
one write, chunk index 1. -/
theorem aesNonce_be64_high_order_w :
    aesNonce 1 = be64 1 ++ [0, 0, 0, 0] ∧
    FromOffset 8 toyAEAD.overhead (GetOffset 8 toyAEAD.overhead 1) = 1 ∧
    (8 + toyAEAD.overhead) ∣ (aesWrites toyAEAD 8 aesWriterInit [[1, 2, 3]]).written :=
  aesNonce_be64_high_order toyAEAD 8 (by decide) [[1, 2, 3]] 1

/-- Claim C7, amended: when the writer is closed after any sequence of
writes, it always seals exactly one final chunk — the residual buffered
plaintext r < C padded to chunkSize with zero bytes (a full zero chunk
when r = 0) — and emits exactly chunkSize + overhead further
ciphertext bytes. -/
theorem aesClose_always_seals_zero_padded (A : AEAD) (C : Nat) (hC : 0 < C)
    (ps : List (List Nat)) :
    (aesWrites A C aesWriterInit ps).buffer.length < C ∧
    (aesClose A C (aesWrites A C aesWriterInit ps)).ds =
      (aesWrites A C aesWriterInit ps).ds ++
        A.Seal (aesNonce (FromOffset C A.overhead (aesWrites A C aesWriterInit ps).written))
          ((aesWrites A C aesWriterInit ps).buffer ++
            List.replicate (C - (aesWrites A C aesWriterInit ps).buffer.length) 0) ∧
    (aesClose A C (aesWrites A C aesWriterInit ps)).ds.length =
      (aesWrites A C aesWriterInit ps).ds.length + (C + A.overhead) := by
  have hb : (aesWrites A C aesWriterInit ps).buffer.length < C :=
    aesWrites_buffer_lt A C hC ps aesWriterInit (by simp only [aesWriterInit]; exact hC)
  refine ⟨hb, ?_, ?_⟩
  · simp [aesClose, hb]
  · simp [aesClose, hb, A.seal_length]
    omega

/-- Witness for aesClose_always_seals_zero_padded at the concrete AEAD,
C = 8 and a single 3-byte write. -/
theorem aesClose_always_seals_zero_padded_w :
    (aesWrites toyAEAD 8 aesWriterInit [[1, 2, 3]]).buffer.length < 8 ∧
    (aesClose toyAEAD 8 (aesWrites toyAEAD 8 aesWriterInit [[1, 2, 3]])).ds =
      (aesWrites toyAEAD 8 aesWriterInit [[1, 2, 3]]).ds ++
        toyAEAD.Seal
          (aesNonce (FromOffset 8 toyAEAD.overhead
            (aesWrites toyAEAD 8 aesWriterInit [[1, 2, 3]]).written))
          ((aesWrites toyAEAD 8 aesWriterInit [[1, 2, 3]]).buffer ++
            List.replicate (8 - (aesWrites toyAEAD 8 aesWriterInit [[1, 2, 3]]).buffer.length) 0) ∧
    (aesClose toyAEAD 8 (aesWrites toyAEAD 8 aesWriterInit [[1, 2, 3]])).ds.length =
      (aesWrites toyAEAD 8 aesWriterInit [[1, 2, 3]]).ds.length + (8 + toyAEAD.overhead) :=
  aesClose_always_seals_zero_padded toyAEAD 8 (by decide) [[1, 2, 3]]

/-- The magic check of Header.Decode returns ok, a panic, or the
unrecognized-magic failure — never a size failure. -/
theorem checkMagicFrom_cases (data : List Nat) :
    ∀ ms i, checkMagicFrom data i ms = .ok () ∨ checkMagicFrom data i ms = .goPanic ∨
      checkMagicFrom data i ms = .unrecognizedMagic := by
  intro ms
  induction ms with
  | nil => intro i; left; rfl
  | cons m ms ih =>
    intro i
    unfold checkMagicFrom
    by_cases h1 : data.length ≤ i
    · rw [if_pos h1]
      right; left; rfl
    · rw [if_neg h1]
      by_cases h2 : data.getD i 0 ≠ m
      · rw [if_pos h2]
        right; right; rfl
      · rw [if_neg h2]
        exact ih (i + 1)

/-- Header.Decode never fails with InvalidHeaderSize. -/
theorem headerDecode_ne_invalid {α : Type} (u : List Nat → Option α) (bs : List Nat) :
    headerDecode u bs ≠ .invalidHeaderSize := by
  intro hcon
  unfold headerDecode at hcon
  rcases checkMagicFrom_cases bs headerMagic 0 with h | h | h <;> rw [h] at hcon <;>
    dsimp only at hcon <;> (repeat' split at hcon) <;> simp at hcon

/-- Header.Encode fails with InvalidHeaderSize exactly when the
marshaled descriptor exceeds HeaderSize - 8 bytes. -/
theorem headerEncode_error_iff (pad marshaled : List Nat) :
    headerEncode pad marshaled = .error .invalidHeaderSize ↔
      headerSizeH - 8 < marshaled.length := by
  unfold headerEncode
  by_cases h : headerSizeH - 8 < marshaled.length
  · simp [h]
  · simp [h]

/-- A successful Header.Encode on full-size padding yields a HeaderSize
buffer starting with the magic. -/
theorem headerEncode_ok_shape (pad marshaled out : List Nat)
    (hpad : pad.length = headerSizeH)
    (hok : headerEncode pad marshaled = .ok out) :
    out.length = headerSizeH ∧ out.take 8 = headerMagic := by
  unfold headerEncode at hok
  by_cases h : headerSizeH - 8 < marshaled.length
  · rw [if_pos h] at hok
    exact absurd hok (by simp)
  · rw [if_neg h] at hok
    have hout : headerMagic ++ le16 marshaled.length ++
        marshaled.take (headerSizeH - 10) ++
        pad.drop (10 + min marshaled.length (headerSizeH - 10)) = out := by
      exact Except.ok.inj hok
    subst hout
    constructor
    · simp only [List.length_append, List.length_take, List.length_drop, hpad]
      have h8 : headerMagic.length = 8 := rfl
      have h2 : (le16 marshaled.length).length = 2 := rfl
      rw [h8, h2]
      unfold headerSizeH at *
      omega
    · rfl

/-- Claim C8, amended: parsing fails with UnrecognizedMagic only on a
bad magic and never fails with InvalidHeaderSize — the descriptor
length L is used without any bound check, an out-of-range L being a Go
panic; dually serialization fails with InvalidHeaderSize exactly when
the descriptor exceeds H - 8 bytes (not H - 10), and a successful
serialization yields an H-byte header starting with the magic, with
descriptor bytes beyond H - 10 silently dropped. -/
theorem header_encode_decode_bounds {α : Type} (u : List Nat → Option α)
    (pad marshaled : List Nat) (hpad : pad.length = headerSizeH) :
    (∀ bs, headerDecode u bs ≠ .invalidHeaderSize) ∧
    (headerEncode pad marshaled = .error .invalidHeaderSize ↔
      headerSizeH - 8 < marshaled.length) ∧
    (∀ out, headerEncode pad marshaled = .ok out →
      out.length = headerSizeH ∧ out.take 8 = headerMagic) :=
  ⟨fun bs => headerDecode_ne_invalid u bs,
   headerEncode_error_iff pad marshaled,
   fun out hok => headerEncode_ok_shape pad marshaled out hpad hok⟩

/-- Witness for header_encode_decode_bounds on a concrete oversized
descriptor of 1015 bytes. -/
theorem header_encode_decode_bounds_w :
    ((∀ bs, headerDecode (fun _ => (none : Option Unit)) bs ≠ .invalidHeaderSize) ∧
      (headerEncode (List.replicate 1024 0) (List.replicate 1015 7) = .error .invalidHeaderSize ↔
        headerSizeH - 8 < (List.replicate 1015 7).length) ∧
      (∀ out, headerEncode (List.replicate 1024 0) (List.replicate 1015 7) = .ok out →
        out.length = headerSizeH ∧ out.take 8 = headerMagic)) :=
  header_encode_decode_bounds (fun _ => (none : Option Unit))
    (List.replicate 1024 0) (List.replicate 1015 7) (by simp [headerSizeH])

end Stitch
